import Mathlib

/-!
# saidia: the dynamic ignore list

A shallow embedding of the ignore-list code of `src/chrome/content.js`
(`createDynamicIgnoreList`, `shouldIgnoreDomain`, `refreshIgnoreList`) and of
the two provider handlers of `src/background.js` (`getHistoryData`,
`getBookmarkData`), followed by theorems about them.

Modelling conventions.

* `new URL(s).hostname` is the browser's URL parser, which is not code of this
  repository. It is a parameter `hostname : String → Option String`
  everywhere; `none` stands for the `TypeError` that `new URL` throws.
* A JavaScript `Map` keeps its entries in insertion order; it is an
  association list with `get`/`set` written out.
* Counts are natural numbers. The code holds them in doubles, which are exact
  far beyond any reachable count (the history query is capped at 10000 items).
* Time is an integer number of milliseconds since the epoch. The code stores
  `new Date().toISOString()` and reads it back with `new Date(...)`, which
  round-trips at millisecond precision.
* The arithmetic of `refreshIgnoreList` is on JavaScript numbers. A finite
  double is the rational it denotes, and each operation is the exact
  operation followed by `roundDouble`, rounding to the nearest double with
  ties to even. `NaN`, the infinities, overflow and subnormal results do not
  arise from time values and a finite `intervalDays`, and are not modelled.
* The callback chain history → bookmarks → persist runs as one sequential
  function on an explicit store.
-/

namespace Saidia

/-! ## Data model -/

/-- One `HistoryItem` of `chrome.history.search`. The code reads only `url`. -/
structure HistoryItem where
  url : String
  visitCount : Nat := 1
  deriving Repr, DecidableEq

/-- One `BookmarkTreeNode`: `url` is absent on folders. An absent `children`
field and an empty one behave alike in `processBookmarks`
(`if (node.children) processBookmarks(node.children)`), so one list stands
for both. -/
inductive BookmarkNode where
  | mk (url : Option String) (children : List BookmarkNode)
  deriving Repr

/-- The object `sendResponse` is called with for `getHistoryData`. -/
structure HistoryResponse where
  historyItems : Option (List HistoryItem) := none
  error : Option String := none

/-- The object `sendResponse` is called with for `getBookmarkData`. -/
structure BookmarkResponse where
  bookmarks : Option (List BookmarkNode) := none
  error : Option String := none

/-- The `settings` object of `createDynamicIgnoreList`. -/
structure Settings where
  historyDaysToAnalyze : Int
  minVisitsForIgnore : Int
  maxDomainsInList : Int
  combinePredefinedDomains : Bool
  deriving Repr, DecidableEq

/-- The `options` argument: every field may be left out. -/
structure Options where
  historyDaysToAnalyze : Option Int := none
  minVisitsForIgnore : Option Int := none
  maxDomainsInList : Option Int := none
  combinePredefinedDomains : Option Bool := none

/-- The `defaults` object of `createDynamicIgnoreList`. -/
def defaults : Settings :=
  { historyDaysToAnalyze := 30
    minVisitsForIgnore := 5
    maxDomainsInList := 500
    combinePredefinedDomains := true }

/-- The spread `{ ...defaults, ...options }`. -/
def mergeSettings (options : Options) : Settings :=
  { historyDaysToAnalyze := options.historyDaysToAnalyze.getD defaults.historyDaysToAnalyze
    minVisitsForIgnore := options.minVisitsForIgnore.getD defaults.minVisitsForIgnore
    maxDomainsInList := options.maxDomainsInList.getD defaults.maxDomainsInList
    combinePredefinedDomains :=
      options.combinePredefinedDomains.getD defaults.combinePredefinedDomains }

/-- The part of `chrome.storage.local` the extension uses: the two ignore-list
keys, and every other key (cached page verdicts by URL, `claudeApiKey`) with
its value kept as text. -/
structure Store where
  dynamicIgnoreList : Option (List String) := none
  ignoreListLastUpdated : Option Int := none
  others : List (String × String) := []
  deriving Repr, DecidableEq

/-! ## The frequency table: a JavaScript `Map` from hostname to count -/

/-- A `Map<string, number>` in insertion order. -/
abbrev DomainMap := List (String × Nat)

/-- The method `Map.prototype.get`: `none` is `undefined`. -/
def DomainMap.get : DomainMap → String → Option Nat
  | [], _ => none
  | (k, v) :: rest, d => if k = d then some v else DomainMap.get rest d

/-- The method `Map.prototype.set`: an existing key keeps its position, a new
key goes to the end. -/
def DomainMap.set : DomainMap → String → Nat → DomainMap
  | [], d, n => [(d, n)]
  | (k, v) :: rest, d, n =>
    if k = d then (k, n) :: rest else (k, v) :: DomainMap.set rest d n

/-- The statement
`domainFrequency.set(domain, (domainFrequency.get(domain) || 0) + w)`;
on numbers `x || 0` is `x` with `undefined` read as `0`. -/
def bump (m : DomainMap) (domain : String) (w : Nat) : DomainMap :=
  m.set domain ((m.get domain).getD 0 + w)

/-! ## `createDynamicIgnoreList` -/

/-- The history loop, lines 48-55: one `try` per item, a parse failure is
logged and the loop goes on. -/
def processHistory (hostname : String → Option String) :
    List HistoryItem → DomainMap → DomainMap
  | [], m => m
  | item :: rest, m =>
    match hostname item.url with
    | some domain => processHistory hostname rest (bump m domain 1)
    | none => processHistory hostname rest m

mutual
/-- The body of the loop of `processBookmarks` for one node, lines 64-75. -/
def processNode (hostname : String → Option String) : BookmarkNode → DomainMap → DomainMap
  | .mk url children, m =>
    let m1 :=
      match url with
      | some u =>
        if u ≠ "" then
          match hostname u with
          | some domain => bump m domain 3
          | none => m
        else m
      | none => m
    processBookmarks hostname children m1
/-- The function `processBookmarks(nodes)`, lines 62-77. -/
def processBookmarks (hostname : String → Option String) :
    List BookmarkNode → DomainMap → DomainMap
  | [], m => m
  | node :: rest, m => processBookmarks hostname rest (processNode hostname node m)
end

/-- The table `domainFrequency` once both callbacks have run, lines 39-80:
a response that is missing or has no `historyItems` / `bookmarks` leaves the
table as it is. -/
def domainFrequency (hostname : String → Option String)
    (historyResponse : Option HistoryResponse) (bookmarkResponse : Option BookmarkResponse) :
    DomainMap :=
  let m0 : DomainMap := []
  let m1 :=
    match historyResponse with
    | some response =>
      match response.historyItems with
      | some items => processHistory hostname items m0
      | none => m0
    | none => m0
  match bookmarkResponse with
  | some response =>
    match response.bookmarks with
    | some nodes => processBookmarks hostname nodes m1
    | none => m1
  | none => m1

/-- The method `Array.prototype.slice(0, stop)`: a negative `stop` counts from
the end of the array. -/
def slice0 {α : Type} (l : List α) (stop : Int) : List α :=
  if stop < 0 then l.take (max ((l.length : Int) + stop) 0).toNat
  else l.take (min stop (l.length : Int)).toNat

/-- The call `.sort((a, b) => b[1] - a[1])`: `Array.prototype.sort` is a stable
sort, so this is the stable sort by count, largest first. -/
def sortByCountDesc (entries : List (String × Nat)) : List (String × Nat) :=
  entries.insertionSort (fun a b => b.2 ≤ a.2)

/-- The chain of lines 86-90: entries, filter, sort, slice, map. -/
def sortedDomains (settings : Settings) (frequency : DomainMap) : List String :=
  (slice0
    (sortByCountDesc
      (frequency.filter (fun entry => decide (settings.minVisitsForIgnore ≤ (entry.2 : Int)))))
    settings.maxDomainsInList).map Prod.fst

/-- The method `Set.prototype.add` on a `Set` kept in insertion order. -/
def setAdd (s : List String) (domain : String) : List String :=
  if domain ∈ s then s else s ++ [domain]

/-- The array `Array.from(ignoreList)` handed to `chrome.storage.local.set`,
lines 83-98. -/
def ignoreListArray (settings : Settings) (frequency : DomainMap) : List String :=
  (sortedDomains settings frequency).foldl setAdd []

/-- The call `chrome.storage.local.set({dynamicIgnoreList, ignoreListLastUpdated})`:
it writes these two keys and no other. `writeOk = false` is a write that fails
(caught and logged at lines 101-103): nothing is written. -/
def storageSetIgnoreList (writeOk : Bool) (list : List String) (now : Int) (store : Store) :
    Store :=
  if writeOk then
    { store with dynamicIgnoreList := some list, ignoreListLastUpdated := some now }
  else store

/-- The function `createDynamicIgnoreList(options)` as a step on the store:
`historyResponse` and `bookmarkResponse` are what the two `sendMessage`
callbacks receive (`none` is an `undefined` response), `now` is the clock at
the write. The value it returns to its caller is always the empty `Set`. -/
def createDynamicIgnoreList (hostname : String → Option String) (options : Options)
    (historyResponse : Option HistoryResponse) (bookmarkResponse : Option BookmarkResponse)
    (now : Int) (writeOk : Bool) (store : Store) : Store :=
  let settings := mergeSettings options
  let frequency := domainFrequency hostname historyResponse bookmarkResponse
  storageSetIgnoreList writeOk (ignoreListArray settings frequency) now store

/-! ## The provider handlers of `background.js` -/

/-- The `getHistoryData` branch of the message listener, lines 53-78:
`search` is what `chrome.history.search` does, an exception thrown (`error`)
or the value its callback is called with (`undefined` when the query failed). -/
def getHistoryData (search : Except String (Option (List HistoryItem))) : HistoryResponse :=
  match search with
  | .ok historyItems => { historyItems := historyItems }
  | .error message => { error := some message }

/-- The `getBookmarkData` branch of the message listener, lines 80-94. -/
def getBookmarkData (getTree : Except String (Option (List BookmarkNode))) : BookmarkResponse :=
  match getTree with
  | .ok bookmarks => { bookmarks := bookmarks }
  | .error message => { error := some message }

/-! ## `shouldIgnoreDomain` and `refreshIgnoreList` -/

/-- The `try` block of `shouldIgnoreDomain`, lines 117-127: `error` is an
exception, from `new URL(url)` or from a rejected `chrome.storage.local.get`. -/
def shouldIgnoreDomainTry (hostname : String → Option String)
    (storageGet : Except String Store) (url : String) : Except String Bool :=
  match hostname url with
  | none => .error "TypeError: Invalid URL"
  | some h =>
    match storageGet with
    | .error e => .error e
    | .ok stored =>
      match stored.dynamicIgnoreList with
      | some list => .ok (list.contains h)
      | none => .ok false

/-- The function `shouldIgnoreDomain(url)`: how its promise settles, `ok` for a
fulfilled promise and `error` for a rejected one. The `catch` block logs and
returns `false`. -/
def shouldIgnoreDomain (hostname : String → Option String)
    (storageGet : Except String Store) (url : String) : Except String Bool :=
  match shouldIgnoreDomainTry hostname storageGet url with
  | .ok isIgnored => .ok isIgnored
  | .error _ => .ok false

/-- What one call of `refreshIgnoreList` does. -/
inductive RefreshAction where
  | build
  | noop
  deriving Repr, DecidableEq

/-- The number `1000 * 60 * 60 * 24` of line 152; the product is exact in
doubles. -/
def msPerDay : ℚ := 1000 * 60 * 60 * 24

/-- The integer nearest to `x`, the even one of the two when `x` lies half way
between them. -/
def roundHalfEven (x : ℚ) : Int :=
  let f := ⌊x⌋
  let r := x - (f : ℚ)
  if r < 1 / 2 then f
  else if 1 / 2 < r then f + 1
  else if f % 2 = 0 then f else f + 1

/-- The double nearest to the rational `q`, ties to even: with
`2 ^ e ≤ |q| < 2 ^ (e + 1)` the doubles around `q` are the multiples of
`2 ^ (e - 52)` (a significand of 53 bits). -/
def roundDouble (q : ℚ) : ℚ :=
  if q = 0 then 0
  else
    let ulp : ℚ := (2 : ℚ) ^ (Int.log 2 |q| - 52)
    (roundHalfEven (q / ulp) : ℚ) * ulp

/-- The function `refreshIgnoreList(intervalDays)`, lines 138-161: `build` is a
call of `createDynamicIgnoreList()`. `intervalDays` is a finite double. The
subtraction `new Date() - lastUpdated` and the division of line 152 are
operations on doubles, each rounded; the comparison of line 154 is exact. A
rejected storage read is caught and logged. -/
def refreshIgnoreList (storageGet : Except String Store) (now : Int) (intervalDays : ℚ) :
    RefreshAction :=
  match storageGet with
  | .error _ => .noop
  | .ok stored =>
    match stored.ignoreListLastUpdated with
    | none => .build
    | some lastUpdated =>
      let elapsed : ℚ := roundDouble ((now - lastUpdated : Int) : ℚ)
      let daysElapsed : ℚ := roundDouble (elapsed / msPerDay)
      if daysElapsed ≥ intervalDays then .build else .noop

/-! ## A URL parser for concrete inputs -/

/-- A stand-in for `new URL(s).hostname` at the concrete inputs below: it
accepts `https://` followed by a non-empty host of lower-case letters, dots
and hyphens, then nothing or a path that starts with `/`, and rejects every
other string. On the URLs written out in this file it returns what the
browser returns. -/
def sampleHostname (s : String) : Option String :=
  let cs := s.toList
  let scheme := "https://".toList
  if scheme.isPrefixOf cs then
    let host := (cs.drop scheme.length).takeWhile (fun c => c != '/')
    if host ≠ [] ∧ host.all (fun c => c.isLower || c == '.' || c == '-') then
      some (String.mk host)
    else none
  else none

/-! ## The counts the frequency table is compared with -/

/-- The weight of a hostname in a table: its count, or `0` when it has no entry. -/
def weight (m : DomainMap) (d : String) : Nat := (m.get d).getD 0

/-- The number of history records whose URL parses to hostname `d`. -/
def historyCount (hostname : String → Option String) (items : List HistoryItem)
    (d : String) : Nat :=
  items.countP (fun item => decide (hostname item.url = some d))

mutual
/-- The number of nodes of the subtree at a node whose URL parses to `d`. -/
def bookmarkCountNode (hostname : String → Option String) (d : String) : BookmarkNode → Nat
  | .mk url children =>
    (match url with
      | some u => if hostname u = some d then 1 else 0
      | none => 0) + bookmarkCount hostname d children
/-- The number of bookmark nodes, at any depth, whose URL parses to `d`. -/
def bookmarkCount (hostname : String → Option String) (d : String) : List BookmarkNode → Nat
  | [] => 0
  | node :: rest => bookmarkCountNode hostname d node + bookmarkCount hostname d rest
end

/-- The table `m2` is the table `m1` with `a` added to the weight of `d`: the
entry of `d` is untouched when `a = 0`. -/
def Adds (m1 m2 : DomainMap) (d : String) (a : Nat) : Prop :=
  m2.get d = if a = 0 then m1.get d else some (weight m1 d + a)

/-! ## Inputs without the URLs that fail to parse, and failed responses -/

/-- The history list with every record whose URL fails to parse removed. -/
def parsableHistory (hostname : String → Option String) (items : List HistoryItem) :
    List HistoryItem :=
  items.filter (fun item => (hostname item.url).isSome)

mutual
/-- A bookmark node with its URL removed when that URL fails to parse, and
the same done in its subtree. -/
def dropUnparsableNode (hostname : String → Option String) : BookmarkNode → BookmarkNode
  | .mk url children =>
    .mk (match url with
      | some u => if (hostname u).isSome then some u else none
      | none => none) (dropUnparsable hostname children)
/-- The bookmark tree with every URL that fails to parse removed. -/
def dropUnparsable (hostname : String → Option String) : List BookmarkNode → List BookmarkNode
  | [] => []
  | node :: rest => dropUnparsableNode hostname node :: dropUnparsable hostname rest
end

/-- The history query failed: the callback got no response, or a response
without `historyItems` (the test `response && response.historyItems`). -/
def historyFailed : Option HistoryResponse → Bool
  | none => true
  | some response => response.historyItems.isNone

/-- The bookmark query failed: the callback got no response, or a response
without `bookmarks` (the test `response && response.bookmarks`). -/
def bookmarkFailed : Option BookmarkResponse → Bool
  | none => true
  | some response => response.bookmarks.isNone

/-! ## Reordered inputs -/

/-- The parser as `processBookmarks` calls it: a node whose `url` is the empty
string is skipped by `if (node.url)` before `new URL` is reached. -/
def guardedHostname (hostname : String → Option String) (u : String) : Option String :=
  if u = "" then none else hostname u

/-- The forest on the right is the forest on the left with the children
reordered at any number of nodes, at any depth, the list of roots included:
`cons` keeps a node in place and reorders below it and after it, `swap`
exchanges two neighbours. -/
inductive Reorder : List BookmarkNode → List BookmarkNode → Prop
  | nil : Reorder [] []
  | cons (url : Option String) {cs cs' l l' : List BookmarkNode} :
      Reorder cs cs' → Reorder l l' → Reorder (.mk url cs :: l) (.mk url cs' :: l')
  | swap (a b : BookmarkNode) (l : List BookmarkNode) : Reorder (a :: b :: l) (b :: a :: l)
  | trans {l1 l2 l3 : List BookmarkNode} : Reorder l1 l2 → Reorder l2 l3 → Reorder l1 l3

/-! ## Concrete inputs -/

/-- One record that does not parse, then nine that do. -/
def oneBadNineGood : List HistoryItem :=
  { url := "not a url" } :: List.replicate 9 { url := "https://a.example.com/page" }


/-- Six visits to `a.example.com` and four to `b.example.com`. -/
def sampleHistory : List HistoryItem :=
  List.replicate 6 { url := "https://a.example.com/page" } ++
    List.replicate 4 { url := "https://b.example.com/" }

/-- A bookmark bar with one folder that holds a bookmark of `b.example.com`. -/
def sampleBookmarks : List BookmarkNode :=
  [.mk none [.mk none [.mk (some "https://b.example.com/docs") []]]]

/-- A folder that holds a bookmark of `a.example.com`, then one of
`b.example.com`. -/
def sampleFolder : List BookmarkNode :=
  [.mk none [.mk (some "https://a.example.com/page") [], .mk (some "https://b.example.com/") []]]

/-- The folder of `sampleFolder` with its two bookmarks exchanged. -/
def sampleFolderReordered : List BookmarkNode :=
  [.mk none [.mk (some "https://b.example.com/") [], .mk (some "https://a.example.com/page") []]]

/-- A store that already holds an ignore list, a timestamp and an API key. -/
def sampleStore : Store :=
  { dynamicIgnoreList := some ["a.example.com"]
    ignoreListLastUpdated := some 0
    others := [("claudeApiKey", "key")] }

/-! ## Lemmas on the table -/

theorem DomainMap.get_set (m : DomainMap) (d : String) (n : Nat) (d' : String) :
    (m.set d n).get d' = if d = d' then some n else m.get d' := by
  induction m with
  | nil => simp [DomainMap.set, DomainMap.get]
  | cons e rest ih =>
    obtain ⟨k, v⟩ := e
    by_cases hk : k = d
    · subst hk
      by_cases hd : k = d' <;> simp [DomainMap.set, DomainMap.get, hd]
    · by_cases hd : k = d'
      · subst hd
        have hne : ¬ d = k := fun h => hk h.symm
        simp [DomainMap.set, DomainMap.get, hk, hne]
      · simp [DomainMap.set, DomainMap.get, hk, hd, ih]

theorem DomainMap.keys_set (m : DomainMap) (d : String) (n : Nat) :
    (m.set d n).map Prod.fst =
      if d ∈ m.map Prod.fst then m.map Prod.fst else m.map Prod.fst ++ [d] := by
  induction m with
  | nil => simp [DomainMap.set]
  | cons e rest ih =>
    obtain ⟨k, v⟩ := e
    by_cases hk : k = d
    · subst hk
      simp [DomainMap.set]
    · have hne : ¬ d = k := fun h => hk h.symm
      by_cases hmem : d ∈ rest.map Prod.fst
      · rw [if_pos hmem] at ih
        simp only [DomainMap.set, hk, if_false, List.map_cons, ih]
        rw [if_pos (List.mem_cons_of_mem _ hmem)]
      · rw [if_neg hmem] at ih
        simp only [DomainMap.set, hk, if_false, List.map_cons, ih]
        have : ¬ d ∈ k :: rest.map Prod.fst := by
          simp only [List.mem_cons, not_or]
          exact ⟨hne, hmem⟩
        rw [if_neg this]
        rfl

theorem DomainMap.nodup_set (m : DomainMap) (d : String) (n : Nat)
    (h : (m.map Prod.fst).Nodup) : ((m.set d n).map Prod.fst).Nodup := by
  rw [DomainMap.keys_set]
  by_cases hmem : d ∈ m.map Prod.fst
  · rw [if_pos hmem]; exact h
  · rw [if_neg hmem]
    exact List.Nodup.append h (List.nodup_singleton d) (by
      intro x hx hx'
      rw [List.mem_singleton] at hx'
      subst hx'
      exact hmem hx)

theorem DomainMap.get_eq_some_iff (m : DomainMap) (h : (m.map Prod.fst).Nodup)
    (d : String) (w : Nat) : m.get d = some w ↔ (d, w) ∈ m := by
  induction m with
  | nil => simp [DomainMap.get]
  | cons e rest ih =>
    obtain ⟨k, v⟩ := e
    rw [List.map_cons, List.nodup_cons] at h
    by_cases hk : k = d
    · subst hk
      simp only [DomainMap.get, if_true, Option.some.injEq, List.mem_cons, Prod.mk.injEq,
        true_and]
      constructor
      · intro hv; exact Or.inl hv.symm
      · rintro (hv | hv)
        · exact hv.symm
        · exact absurd (List.mem_map_of_mem Prod.fst hv) h.1
    · have hne : ¬ d = k := fun h => hk h.symm
      simp [DomainMap.get, hk, hne, ih h.2]

theorem get_bump (m : DomainMap) (domain : String) (w : Nat) (d : String) :
    (bump m domain w).get d = if domain = d then some (weight m domain + w) else m.get d := by
  simp [bump, weight, DomainMap.get_set]

theorem nodup_bump (m : DomainMap) (domain : String) (w : Nat)
    (h : (m.map Prod.fst).Nodup) : ((bump m domain w).map Prod.fst).Nodup :=
  DomainMap.nodup_set m domain _ h

theorem Adds.refl (m : DomainMap) (d : String) : Adds m m d 0 := by
  simp [Adds]

theorem Adds.trans {m1 m2 m3 : DomainMap} {d : String} {a b : Nat}
    (h12 : Adds m1 m2 d a) (h23 : Adds m2 m3 d b) : Adds m1 m3 d (a + b) := by
  unfold Adds at *
  by_cases ha : a = 0 <;> by_cases hb : b = 0
  · simp [ha, hb] at *; rw [h23, h12]
  · simp [ha, hb, weight] at *; rw [h23, h12]
  · simp [ha, hb] at *; rw [h23, h12]
  · simp [ha, hb, weight] at *; rw [h23, h12]; simp [Nat.add_assoc]

theorem adds_bump (m : DomainMap) (domain : String) (w : Nat) (hw : w ≠ 0) (d : String) :
    Adds m (bump m domain w) d (if domain = d then w else 0) := by
  unfold Adds
  rw [get_bump]
  by_cases h : domain = d
  · subst h; simp [hw]
  · simp [h]

/-! ## Lemmas on the two aggregation loops -/

theorem adds_processHistory (hostname : String → Option String) (d : String)
    (items : List HistoryItem) (m : DomainMap) :
    Adds m (processHistory hostname items m) d (historyCount hostname items d) := by
  induction items generalizing m with
  | nil => simpa [processHistory, historyCount] using Adds.refl m d
  | cons item rest ih =>
    cases hp : hostname item.url with
    | none =>
      have h := ih m
      simpa [processHistory, historyCount, hp, List.countP_cons] using h
    | some domain =>
      have h1 := adds_bump m domain 1 (by decide) d
      have h2 := ih (bump m domain 1)
      have h := Adds.trans h1 h2
      by_cases hd : domain = d
      · subst hd
        simpa [processHistory, historyCount, hp, List.countP_cons, Nat.add_comm] using h
      · simpa [processHistory, historyCount, hp, List.countP_cons, hd] using h

theorem nodup_processHistory (hostname : String → Option String)
    (items : List HistoryItem) (m : DomainMap) (h : (m.map Prod.fst).Nodup) :
    ((processHistory hostname items m).map Prod.fst).Nodup := by
  induction items generalizing m with
  | nil => simpa [processHistory] using h
  | cons item rest ih =>
    cases hp : hostname item.url with
    | none => simpa [processHistory, hp] using ih m h
    | some domain =>
      simpa [processHistory, hp] using ih (bump m domain 1) (nodup_bump m domain 1 h)

mutual
theorem adds_processNode (hostname : String → Option String) (h0 : hostname "" = none)
    (d : String) : ∀ (node : BookmarkNode) (m : DomainMap),
    Adds m (processNode hostname node m) d (3 * bookmarkCountNode hostname d node)
  | .mk url children, m => by
    cases url with
    | none =>
      have h := adds_processBookmarks hostname h0 d children m
      simpa [processNode, bookmarkCountNode] using h
    | some u =>
      by_cases hu : u = ""
      · subst hu
        have h := adds_processBookmarks hostname h0 d children m
        simpa [processNode, bookmarkCountNode, h0] using h
      · cases hp : hostname u with
        | none =>
          have h := adds_processBookmarks hostname h0 d children m
          simpa [processNode, bookmarkCountNode, hu, hp] using h
        | some domain =>
          have h1 := adds_bump m domain 3 (by decide) d
          have h2 := adds_processBookmarks hostname h0 d children (bump m domain 3)
          have h := Adds.trans h1 h2
          by_cases hd : domain = d
          · subst hd
            simpa [processNode, bookmarkCountNode, hu, hp, Nat.mul_add] using h
          · simpa [processNode, bookmarkCountNode, hu, hp, hd] using h
theorem adds_processBookmarks (hostname : String → Option String) (h0 : hostname "" = none)
    (d : String) : ∀ (nodes : List BookmarkNode) (m : DomainMap),
    Adds m (processBookmarks hostname nodes m) d (3 * bookmarkCount hostname d nodes)
  | [], m => by simpa [processBookmarks, bookmarkCount] using Adds.refl m d
  | node :: rest, m => by
    have h1 := adds_processNode hostname h0 d node m
    have h2 := adds_processBookmarks hostname h0 d rest (processNode hostname node m)
    have h := Adds.trans h1 h2
    simpa [processBookmarks, bookmarkCount, Nat.mul_add] using h
end

mutual
theorem nodup_processNode (hostname : String → Option String) :
    ∀ (node : BookmarkNode) (m : DomainMap), (m.map Prod.fst).Nodup →
    ((processNode hostname node m).map Prod.fst).Nodup
  | .mk url children, m, h => by
    cases url with
    | none => simpa [processNode] using nodup_processBookmarks hostname children m h
    | some u =>
      by_cases hu : u = ""
      · simpa [processNode, hu] using nodup_processBookmarks hostname children m h
      · cases hp : hostname u with
        | none => simpa [processNode, hu, hp] using nodup_processBookmarks hostname children m h
        | some domain =>
          simpa [processNode, hu, hp] using
            nodup_processBookmarks hostname children (bump m domain 3) (nodup_bump m domain 3 h)
theorem nodup_processBookmarks (hostname : String → Option String) :
    ∀ (nodes : List BookmarkNode) (m : DomainMap), (m.map Prod.fst).Nodup →
    ((processBookmarks hostname nodes m).map Prod.fst).Nodup
  | [], m, h => by simpa [processBookmarks] using h
  | node :: rest, m, h => by
    simpa [processBookmarks] using
      nodup_processBookmarks hostname rest _ (nodup_processNode hostname node m h)
end

theorem nodup_domainFrequency (hostname : String → Option String)
    (historyResponse : Option HistoryResponse) (bookmarkResponse : Option BookmarkResponse) :
    ((domainFrequency hostname historyResponse bookmarkResponse).map Prod.fst).Nodup := by
  have hnil : ((([] : DomainMap)).map Prod.fst).Nodup := by simp
  unfold domainFrequency
  rcases historyResponse with _ | ⟨_ | items, e1⟩ <;>
    rcases bookmarkResponse with _ | ⟨_ | nodes, e2⟩ <;>
    simp only [] <;>
    first
    | exact hnil
    | exact nodup_processHistory hostname _ _ hnil
    | exact nodup_processBookmarks hostname _ _ hnil
    | exact nodup_processBookmarks hostname _ _ (nodup_processHistory hostname _ _ hnil)

/-! ## Lemmas on filter, sort, slice and the `Set` -/

theorem slice0_sublist {α : Type} (l : List α) (stop : Int) : (slice0 l stop).Sublist l := by
  unfold slice0
  split <;> exact List.take_sublist _ _

theorem slice0_length_le {α : Type} (l : List α) (stop : Int) (h : 0 ≤ stop) :
    ((slice0 l stop).length : Int) ≤ stop := by
  unfold slice0
  rw [if_neg (by omega)]
  rw [List.length_take]
  omega

theorem slice0_eq_self {α : Type} (l : List α) (stop : Int) (h : (l.length : Int) ≤ stop) :
    slice0 l stop = l := by
  unfold slice0
  rw [if_neg (by omega)]
  apply List.take_of_length_le
  omega

theorem sortByCountDesc_perm (entries : List (String × Nat)) :
    (sortByCountDesc entries).Perm entries :=
  List.perm_insertionSort _ entries

theorem foldl_setAdd_eq (l acc : List String) (hl : l.Nodup) (hd : ∀ x ∈ l, x ∉ acc) :
    l.foldl setAdd acc = acc ++ l := by
  induction l generalizing acc with
  | nil => simp
  | cons x rest ih =>
    rw [List.nodup_cons] at hl
    have hx : x ∉ acc := hd x (List.mem_cons_self _ _)
    rw [List.foldl_cons]
    have hadd : setAdd acc x = acc ++ [x] := by simp [setAdd, hx]
    rw [hadd, ih (acc ++ [x]) hl.2]
    · simp
    · intro y hy hmem
      rw [List.mem_append, List.mem_singleton] at hmem
      rcases hmem with hmem | hmem
      · exact hd y (List.mem_cons_of_mem _ hy) hmem
      · subst hmem
        exact hl.1 hy

theorem nodup_sortedDomains (settings : Settings) (frequency : DomainMap)
    (h : (frequency.map Prod.fst).Nodup) : (sortedDomains settings frequency).Nodup := by
  unfold sortedDomains
  have h1 : ((frequency.filter
      (fun entry => decide (settings.minVisitsForIgnore ≤ (entry.2 : Int)))).map
        Prod.fst).Nodup :=
    List.Nodup.sublist ((List.filter_sublist _).map Prod.fst) h
  have h2 : ((sortByCountDesc (frequency.filter
      (fun entry => decide (settings.minVisitsForIgnore ≤ (entry.2 : Int))))).map
        Prod.fst).Nodup :=
    ((sortByCountDesc_perm _).map Prod.fst).nodup_iff.mpr h1
  exact List.Nodup.sublist ((slice0_sublist _ _).map Prod.fst) h2

/-- Map keys are distinct, so adding the sorted domains to a fresh `Set` and
reading it back gives the sorted domains themselves. -/
theorem ignoreListArray_eq (settings : Settings) (frequency : DomainMap)
    (h : (frequency.map Prod.fst).Nodup) :
    ignoreListArray settings frequency = sortedDomains settings frequency := by
  unfold ignoreListArray
  rw [foldl_setAdd_eq _ [] (nodup_sortedDomains settings frequency h) (by simp)]
  simp

theorem mem_sortedDomains (settings : Settings) (frequency : DomainMap)
    (h : (frequency.map Prod.fst).Nodup) (d : String)
    (hd : d ∈ sortedDomains settings frequency) :
    ∃ w : Nat, frequency.get d = some w ∧ settings.minVisitsForIgnore ≤ (w : Int) := by
  unfold sortedDomains at hd
  rw [List.mem_map] at hd
  obtain ⟨⟨k, w⟩, hmem, hk⟩ := hd
  simp only at hk
  subst hk
  have h1 := (slice0_sublist _ _).subset hmem
  have h2 := (sortByCountDesc_perm _).subset h1
  rw [List.mem_filter] at h2
  refine ⟨w, (DomainMap.get_eq_some_iff frequency h k w).mpr h2.1, ?_⟩
  simpa using h2.2

theorem sortedDomains_of_fits (settings : Settings) (frequency : DomainMap)
    (h : (frequency.map Prod.fst).Nodup)
    (hfit : (((frequency.filter
      (fun entry => decide (settings.minVisitsForIgnore ≤ (entry.2 : Int)))).length : Nat) : Int)
        ≤ settings.maxDomainsInList)
    (d : String) (w : Nat) (hw : frequency.get d = some w)
    (hmin : settings.minVisitsForIgnore ≤ (w : Int)) :
    d ∈ sortedDomains settings frequency := by
  unfold sortedDomains
  rw [slice0_eq_self]
  · rw [List.mem_map]
    refine ⟨(d, w), ?_, rfl⟩
    apply (sortByCountDesc_perm _).symm.subset
    rw [List.mem_filter]
    exact ⟨(DomainMap.get_eq_some_iff frequency h d w).mp hw, by simpa using hmin⟩
  · rw [(sortByCountDesc_perm _).length_eq]
    exact hfit

theorem dynamicIgnoreList_create (hostname : String → Option String) (options : Options)
    (historyResponse : Option HistoryResponse) (bookmarkResponse : Option BookmarkResponse)
    (now : Int) (store : Store) :
    (createDynamicIgnoreList hostname options historyResponse bookmarkResponse now true
      store).dynamicIgnoreList =
      some (sortedDomains (mergeSettings options)
        (domainFrequency hostname historyResponse bookmarkResponse)) := by
  simp [createDynamicIgnoreList, storageSetIgnoreList,
    ignoreListArray_eq _ _ (nodup_domainFrequency hostname historyResponse bookmarkResponse)]

theorem get_domainFrequency (hostname : String → Option String) (h0 : hostname "" = none)
    (items : List HistoryItem) (nodes : List BookmarkNode) (e1 e2 : Option String)
    (d : String) :
    (domainFrequency hostname (some ⟨some items, e1⟩) (some ⟨some nodes, e2⟩)).get d =
      if historyCount hostname items d + 3 * bookmarkCount hostname d nodes = 0 then none
      else some (historyCount hostname items d + 3 * bookmarkCount hostname d nodes) := by
  have h1 := adds_processHistory hostname d items []
  have h2 := adds_processBookmarks hostname h0 d nodes (processHistory hostname items [])
  have h := Adds.trans h1 h2
  unfold Adds at h
  simpa [domainFrequency, weight, DomainMap.get] using h

theorem processHistory_parsable (hostname : String → Option String)
    (items : List HistoryItem) (m : DomainMap) :
    processHistory hostname (parsableHistory hostname items) m =
      processHistory hostname items m := by
  induction items generalizing m with
  | nil => rfl
  | cons item rest ih =>
    cases hp : hostname item.url with
    | none =>
      have := ih m
      simpa [parsableHistory, processHistory, hp, List.filter_cons] using this
    | some domain =>
      have := ih (bump m domain 1)
      simpa [parsableHistory, processHistory, hp, List.filter_cons] using this

mutual
theorem processNode_dropUnparsable (hostname : String → Option String) :
    ∀ (node : BookmarkNode) (m : DomainMap),
    processNode hostname (dropUnparsableNode hostname node) m = processNode hostname node m
  | .mk url children, m => by
    cases url with
    | none =>
      simpa [processNode, dropUnparsableNode] using
        processBookmarks_dropUnparsable hostname children m
    | some u =>
      cases hp : hostname u with
      | none =>
        by_cases hu : u = ""
        · subst hu
          simpa [processNode, dropUnparsableNode, hp] using
            processBookmarks_dropUnparsable hostname children m
        · simpa [processNode, dropUnparsableNode, hp, hu] using
            processBookmarks_dropUnparsable hostname children m
      | some domain =>
        by_cases hu : u = ""
        · subst hu
          simpa [processNode, dropUnparsableNode, hp] using
            processBookmarks_dropUnparsable hostname children m
        · simpa [processNode, dropUnparsableNode, hp, hu] using
            processBookmarks_dropUnparsable hostname children (bump m domain 3)
theorem processBookmarks_dropUnparsable (hostname : String → Option String) :
    ∀ (nodes : List BookmarkNode) (m : DomainMap),
    processBookmarks hostname (dropUnparsable hostname nodes) m =
      processBookmarks hostname nodes m
  | [], m => by simp [dropUnparsable]
  | node :: rest, m => by
    simp only [dropUnparsable, processBookmarks]
    rw [processNode_dropUnparsable hostname node m,
      processBookmarks_dropUnparsable hostname rest]
end

theorem domainFrequency_failed_history (hostname : String → Option String)
    (historyResponse : Option HistoryResponse) (bookmarkResponse : Option BookmarkResponse)
    (h : historyFailed historyResponse = true) :
    domainFrequency hostname historyResponse bookmarkResponse =
      domainFrequency hostname (some ⟨some [], none⟩) bookmarkResponse := by
  rcases historyResponse with _ | ⟨_ | items, e⟩
  · simp [domainFrequency, processHistory]
  · simp [domainFrequency, processHistory]
  · simp [historyFailed] at h

theorem domainFrequency_failed_bookmarks (hostname : String → Option String)
    (historyResponse : Option HistoryResponse) (bookmarkResponse : Option BookmarkResponse)
    (h : bookmarkFailed bookmarkResponse = true) :
    domainFrequency hostname historyResponse bookmarkResponse =
      domainFrequency hostname historyResponse (some ⟨some [], none⟩) := by
  rcases bookmarkResponse with _ | ⟨_ | nodes, e⟩
  · simp [domainFrequency, processBookmarks]
  · simp [domainFrequency, processBookmarks]
  · simp [bookmarkFailed] at h

/-! ## Lemmas on the sort order and on reordered inputs -/

theorem sorted_sortByCountDesc (entries : List (String × Nat)) :
    (sortByCountDesc entries).Pairwise (fun a b => b.2 ≤ a.2) := by
  haveI : IsTotal (String × Nat) (fun a b => b.2 ≤ a.2) := ⟨fun a b => Nat.le_total b.2 a.2⟩
  haveI : IsTrans (String × Nat) (fun a b => b.2 ≤ a.2) :=
    ⟨fun _ _ _ hab hbc => Nat.le_trans hbc hab⟩
  exact List.sorted_insertionSort (fun a b : String × Nat => b.2 ≤ a.2) entries

theorem slice0_eq_take {α : Type} (l : List α) (stop : Int) :
    ∃ n : Nat, slice0 l stop = l.take n := by
  unfold slice0
  split
  · exact ⟨_, rfl⟩
  · exact ⟨_, rfl⟩

theorem weight_of_mem (m : DomainMap) (h : (m.map Prod.fst).Nodup) (d : String) (w : Nat)
    (hmem : (d, w) ∈ m) : weight m d = w := by
  unfold weight
  rw [(DomainMap.get_eq_some_iff m h d w).mpr hmem]
  rfl

mutual
theorem processNode_guarded (hostname : String → Option String) :
    ∀ (node : BookmarkNode) (m : DomainMap),
    processNode hostname node m = processNode (guardedHostname hostname) node m
  | .mk url children, m => by
    cases url with
    | none =>
      simpa [processNode] using processBookmarks_guarded hostname children m
    | some u =>
      by_cases hu : u = ""
      · simpa [processNode, hu] using processBookmarks_guarded hostname children m
      · cases hp : hostname u with
        | none =>
          simpa [processNode, guardedHostname, hu, hp] using
            processBookmarks_guarded hostname children m
        | some domain =>
          simpa [processNode, guardedHostname, hu, hp] using
            processBookmarks_guarded hostname children (bump m domain 3)
theorem processBookmarks_guarded (hostname : String → Option String) :
    ∀ (nodes : List BookmarkNode) (m : DomainMap),
    processBookmarks hostname nodes m = processBookmarks (guardedHostname hostname) nodes m
  | [], m => by simp [processBookmarks]
  | node :: rest, m => by
    simp only [processBookmarks]
    rw [processNode_guarded hostname node m, processBookmarks_guarded hostname rest]
end

theorem get_domainFrequency_guarded (hostname : String → Option String)
    (items : List HistoryItem) (nodes : List BookmarkNode) (e1 e2 : Option String)
    (d : String) :
    (domainFrequency hostname (some ⟨some items, e1⟩) (some ⟨some nodes, e2⟩)).get d =
      if historyCount hostname items d +
          3 * bookmarkCount (guardedHostname hostname) d nodes = 0 then none
      else some (historyCount hostname items d +
          3 * bookmarkCount (guardedHostname hostname) d nodes) := by
  have h1 := adds_processHistory hostname d items []
  have h2 := adds_processBookmarks (guardedHostname hostname) (by simp [guardedHostname]) d nodes
    (processHistory hostname items [])
  rw [← processBookmarks_guarded] at h2
  have h := Adds.trans h1 h2
  unfold Adds at h
  simpa [domainFrequency, weight, DomainMap.get] using h

theorem bookmarkCount_reorder (hostname : String → Option String) (d : String)
    {nodes nodes' : List BookmarkNode} (h : Reorder nodes nodes') :
    bookmarkCount hostname d nodes = bookmarkCount hostname d nodes' := by
  induction h with
  | nil => rfl
  | cons url _ _ ih1 ih2 => simp only [bookmarkCount, bookmarkCountNode, ih1, ih2]
  | swap a b l => simp only [bookmarkCount]; omega
  | trans _ _ ih1 ih2 => exact ih1.trans ih2

theorem historyCount_perm (hostname : String → Option String) (d : String)
    {items items' : List HistoryItem} (h : items.Perm items') :
    historyCount hostname items d = historyCount hostname items' d := by
  unfold historyCount
  exact h.countP_eq _

/-! ## Lemmas on the arithmetic of `refreshIgnoreList` -/

theorem roundHalfEven_intCast (z : Int) : roundHalfEven (z : ℚ) = z := by
  simp [roundHalfEven]

theorem abs_roundHalfEven_sub_le (x : ℚ) : |(roundHalfEven x : ℚ) - x| ≤ 1 / 2 := by
  have h0 : 0 ≤ x - (⌊x⌋ : ℚ) := by
    have := Int.floor_le x
    linarith
  have h1 : x - (⌊x⌋ : ℚ) < 1 := by
    have := Int.lt_floor_add_one x
    linarith
  unfold roundHalfEven
  simp only
  rw [abs_le]
  split_ifs with ha hb hc
  · constructor <;> linarith
  · push_cast
    constructor <;> linarith
  · have : x - (⌊x⌋ : ℚ) = 1 / 2 := le_antisymm (not_lt.mp hb) (not_lt.mp ha)
    constructor <;> linarith
  · have : x - (⌊x⌋ : ℚ) = 1 / 2 := le_antisymm (not_lt.mp hb) (not_lt.mp ha)
    push_cast
    constructor <;> linarith

theorem abs_roundDouble_sub_le (q : ℚ) : |roundDouble q - q| ≤ |q| / 2 ^ 53 := by
  unfold roundDouble
  split_ifs with hq
  · simp [hq]
  · simp only
    have hpos : (0 : ℚ) < |q| := abs_pos.mpr hq
    set L := Int.log 2 |q| with hL
    have hulp : (0 : ℚ) < (2 : ℚ) ^ (L - 52) := zpow_pos (by norm_num) _
    have hle : (2 : ℚ) ^ L ≤ |q| := by
      have := Int.zpow_log_le_self (b := 2) (by norm_num) hpos
      simpa using this
    have hulp_eq : (2 : ℚ) ^ (L - 52) = (2 : ℚ) ^ L / 2 ^ 52 := by
      rw [zpow_sub₀ (by norm_num)]
      norm_num
    have herr := abs_roundHalfEven_sub_le (q / (2 : ℚ) ^ (L - 52))
    have hrew : (roundHalfEven (q / (2 : ℚ) ^ (L - 52)) : ℚ) * (2 : ℚ) ^ (L - 52) - q =
        ((roundHalfEven (q / (2 : ℚ) ^ (L - 52)) : ℚ) - q / (2 : ℚ) ^ (L - 52)) *
          (2 : ℚ) ^ (L - 52) := by
      field_simp
    rw [hrew, abs_mul, abs_of_pos hulp]
    calc |(roundHalfEven (q / (2 : ℚ) ^ (L - 52)) : ℚ) - q / (2 : ℚ) ^ (L - 52)| *
          (2 : ℚ) ^ (L - 52)
        ≤ 1 / 2 * (2 : ℚ) ^ (L - 52) := by
          exact mul_le_mul_of_nonneg_right herr hulp.le
      _ = (2 : ℚ) ^ L / 2 ^ 53 := by rw [hulp_eq]; ring
      _ ≤ |q| / 2 ^ 53 := by
          exact div_le_div_of_nonneg_right hle (by positivity)

theorem roundDouble_intCast (n : Int) (hn : |n| < 2 ^ 53) : roundDouble (n : ℚ) = n := by
  unfold roundDouble
  split_ifs with hq
  · exact hq.symm
  · simp only
    have hpos : (0 : ℚ) < |(n : ℚ)| := abs_pos.mpr hq
    set L := Int.log 2 |(n : ℚ)| with hL
    have hle : (2 : ℚ) ^ L ≤ |(n : ℚ)| := by
      have := Int.zpow_log_le_self (b := 2) (by norm_num) hpos
      simpa using this
    have hlt : |(n : ℚ)| < (2 : ℚ) ^ (53 : Int) := by
      have : ((|n| : Int) : ℚ) < ((2 ^ 53 : Int) : ℚ) := by exact_mod_cast hn
      rw [Int.cast_abs] at this
      norm_num at this ⊢
      exact this
    have hL52 : L ≤ 52 := by
      by_contra hcon
      have h53 : (53 : Int) ≤ L := by omega
      have : (2 : ℚ) ^ (53 : Int) ≤ (2 : ℚ) ^ L := zpow_le_zpow_right₀ (by norm_num) h53
      linarith
    obtain ⟨m, hm⟩ : ∃ m : Nat, (m : Int) = 52 - L := ⟨(52 - L).toNat, by omega⟩
    have hulp : (2 : ℚ) ^ (L - 52) = ((2 : ℚ) ^ m)⁻¹ := by
      have : L - 52 = -(m : Int) := by omega
      rw [this, zpow_neg, zpow_natCast]
    rw [hulp]
    have hint : (n : ℚ) / ((2 : ℚ) ^ m)⁻¹ = ((n * 2 ^ m : Int) : ℚ) := by
      push_cast
      field_simp
    rw [hint, roundHalfEven_intCast]
    push_cast
    field_simp

/-- With any rounding that is within a relative error of `2 ^ -53` and exact on
integers below `2 ^ 53`, the rounded quotient of line 152 reaches a whole
number `k` of days, at most `10 ^ 8` in absolute value, exactly when the elapsed
time reaches `k × 86400000` ms. -/
theorem days_compare (rd : ℚ → ℚ) (hA : ∀ q : ℚ, |rd q - q| ≤ |q| / 2 ^ 53)
    (hB : ∀ n : Int, |n| < 2 ^ 53 → rd (n : ℚ) = n)
    (e k : Int) (hk : |k| ≤ 100000000) :
    (k : ℚ) ≤ rd (rd (e : ℚ) / 86400000) ↔ k * 86400000 ≤ e := by
  have hk1 : (k : ℚ) ≤ 100000000 := by
    have := (abs_le.mp hk).2
    exact_mod_cast this
  have hk2 : (-100000000 : ℚ) ≤ k := by
    have := (abs_le.mp hk).1
    exact_mod_cast this
  by_cases hsmall : |e| < 2 ^ 53
  · rw [hB e hsmall]
    have hQ := hA ((e : ℚ) / 86400000)
    rw [abs_le] at hQ
    constructor
    · intro hd
      by_contra hcon
      have he : e ≤ k * 86400000 - 1 := by omega
      have heq : (e : ℚ) ≤ k * 86400000 - 1 := by exact_mod_cast he
      have hq : (e : ℚ) / 86400000 ≤ k - 1 / 86400000 := by
        rw [div_le_iff₀ (by norm_num)]
        linarith
      rcases le_or_lt 0 ((e : ℚ) / 86400000) with hs | hs
      · rw [abs_of_nonneg hs] at hQ
        norm_num at hQ
        linarith [hQ.2]
      · rw [abs_of_neg hs] at hQ
        norm_num at hQ
        linarith [hQ.2]
    · intro he
      rcases eq_or_lt_of_le he with heq | hlt
      · have : (e : ℚ) / 86400000 = ((k : Int) : ℚ) := by
          rw [← heq]; push_cast; field_simp
        rw [this, hB k (lt_of_le_of_lt hk (by norm_num))]
      · have he1 : k * 86400000 + 1 ≤ e := by omega
        have heq : (k : ℚ) * 86400000 + 1 ≤ e := by exact_mod_cast he1
        have hq : (k : ℚ) + 1 / 86400000 ≤ (e : ℚ) / 86400000 := by
          rw [le_div_iff₀ (by norm_num)]
          linarith
        rcases le_or_lt 0 ((e : ℚ) / 86400000) with hs | hs
        · rw [abs_of_nonneg hs] at hQ
          norm_num at hQ
          linarith [hQ.1]
        · rw [abs_of_neg hs] at hQ
          norm_num at hQ
          linarith [hQ.1]
  · push_neg at hsmall
    have hE := hA (e : ℚ)
    rw [abs_le] at hE
    rcases le_or_lt 0 e with hs | hs
    · rw [abs_of_nonneg hs] at hsmall
      have hsq : (2 : ℚ) ^ 53 ≤ e := by exact_mod_cast hsmall
      have hs' : (0 : ℚ) ≤ e := by exact_mod_cast hs
      rw [abs_of_nonneg hs'] at hE
      have hEpos : (0 : ℚ) ≤ rd (e : ℚ) / 86400000 := by
        apply div_nonneg _ (by norm_num)
        norm_num at hE hsq
        linarith [hE.1]
      have hQ := hA (rd (e : ℚ) / 86400000)
      rw [abs_le, abs_of_nonneg hEpos] at hQ
      have hlow : (104249991 : ℚ) ≤ rd (e : ℚ) / 86400000 := by
        rw [le_div_iff₀ (by norm_num)]
        norm_num at hE hsq
        linarith [hE.1]
      constructor
      · intro _
        have : k * 86400000 ≤ 2 ^ 53 := by
          have := (abs_le.mp hk).2
          norm_num
          omega
        omega
      · intro _
        norm_num at hQ
        linarith [hQ.1]
    · rw [abs_of_neg hs] at hsmall
      have hsq : (e : ℚ) ≤ -(2 : ℚ) ^ 53 := by
        have : e ≤ -(2 ^ 53) := by omega
        exact_mod_cast this
      have hs' : (e : ℚ) < 0 := by exact_mod_cast hs
      rw [abs_of_neg hs'] at hE
      have hEneg : rd (e : ℚ) / 86400000 < 0 := by
        apply div_neg_of_neg_of_pos _ (by norm_num)
        norm_num at hE hsq
        linarith [hE.2]
      have hQ := hA (rd (e : ℚ) / 86400000)
      rw [abs_le, abs_of_neg hEneg] at hQ
      have hhigh : rd (e : ℚ) / 86400000 ≤ (-104249991 : ℚ) := by
        rw [div_le_iff₀ (by norm_num)]
        norm_num at hE hsq
        linarith [hE.2]
      constructor
      · intro hd
        exfalso
        norm_num at hQ
        linarith [hQ.2]
      · intro he
        exfalso
        have := (abs_le.mp hk).1
        norm_num at hsmall
        omega

theorem log_tenth : Int.log 2 |(1 / 10 : ℚ)| = -4 := by
  have hpos : (0 : ℚ) < |(1 / 10 : ℚ)| := by norm_num
  apply le_antisymm
  · have h := (Int.lt_zpow_iff_log_lt (b := 2) (by norm_num) (x := -3) hpos).mp (by
      rw [abs_of_pos (by norm_num)]
      norm_num)
    omega
  · exact (Int.zpow_le_iff_le_log (b := 2) (by norm_num) hpos).mp (by
      rw [abs_of_pos (by norm_num)]
      norm_num)

theorem roundDouble_tenth : roundDouble (1 / 10) = 3602879701896397 / 2 ^ 55 := by
  unfold roundDouble
  rw [if_neg (by norm_num), log_tenth]
  simp only
  have hx : (1 / 10 : ℚ) / (2 : ℚ) ^ ((-4 : Int) - 52) = 7205759403792793 + 3 / 5 := by
    norm_num
  have hf : ⌊(7205759403792793 + 3 / 5 : ℚ)⌋ = 7205759403792793 := by
    rw [Int.floor_eq_iff]
    constructor <;> norm_num
  have hr : roundHalfEven (7205759403792793 + 3 / 5 : ℚ) = 7205759403792794 := by
    unfold roundHalfEven
    simp only [hf]
    norm_num
  rw [hx, hr]
  norm_num

theorem refreshIgnoreList_some (list : Option (List String)) (others : List (String × String))
    (lastUpdated now k : Int) (hlo : -100000000 ≤ k) (hhi : k ≤ 100000000) :
    refreshIgnoreList (.ok ⟨list, some lastUpdated, others⟩) now (k : ℚ) = .build ↔
      k * 86400000 ≤ now - lastUpdated := by
  have hms : msPerDay = 86400000 := by norm_num [msPerDay]
  have hcmp := days_compare roundDouble abs_roundDouble_sub_le roundDouble_intCast
    (now - lastUpdated) k (abs_le.mpr ⟨hlo, hhi⟩)
  simp only [refreshIgnoreList, ge_iff_le, hms]
  constructor
  · intro h
    by_contra hc
    rw [if_neg (fun hd => hc (hcmp.mp hd))] at h
    cases h
  · intro h
    rw [if_pos (hcmp.mpr h)]

/-- At `intervalDays` the double nearest to 0.1 and an elapsed time of
8640000 ms the quotient of line 152 rounds to that same double, and the list is
rebuilt. -/
theorem refreshIgnoreList_tenth_of_a_day (list : Option (List String))
    (others : List (String × String)) (now : Int) :
    refreshIgnoreList (.ok ⟨list, some (now - 8640000), others⟩) now
      (3602879701896397 / 2 ^ 55) = .build := by
  have hms : msPerDay = 86400000 := by norm_num [msPerDay]
  have he : now - (now - 8640000) = 8640000 := by omega
  have h1 : roundDouble ((8640000 : Int) : ℚ) = ((8640000 : Int) : ℚ) :=
    roundDouble_intCast 8640000 (by norm_num)
  have h2 : ((8640000 : Int) : ℚ) / 86400000 = 1 / 10 := by norm_num
  simp only [refreshIgnoreList, ge_iff_le, hms, he, h1, h2, roundDouble_tenth]
  rw [if_pos (le_refl _)]

/-! ## The claims -/

/-- C1: every domain of the ignore list that `createDynamicIgnoreList` persists
has an entry in the frequency table built from the same responses, and the
weight in that entry is at least `minVisitsForIgnore`. -/
theorem persisted_domains_meet_threshold (hostname : String → Option String)
    (options : Options) (historyResponse : Option HistoryResponse)
    (bookmarkResponse : Option BookmarkResponse) (now : Int) (store : Store)
    (list : List String)
    (hlist : (createDynamicIgnoreList hostname options historyResponse bookmarkResponse now true
      store).dynamicIgnoreList = some list)
    (d : String) (hd : d ∈ list) :
    ∃ w : Nat, (domainFrequency hostname historyResponse bookmarkResponse).get d = some w ∧
      (mergeSettings options).minVisitsForIgnore ≤ (w : Int) := by
  rw [dynamicIgnoreList_create] at hlist
  cases hlist
  exact mem_sortedDomains _ _ (nodup_domainFrequency _ _ _) d hd

/-- The instance of C1 at six visits to `a.example.com`, four visits and one
bookmark for `b.example.com`, and the default threshold 5: `b.example.com`
is in the persisted list and its weight is at least 5. -/
theorem persisted_domains_meet_threshold_witness :
    ∃ w : Nat, (domainFrequency sampleHostname (some { historyItems := some sampleHistory })
        (some { bookmarks := some sampleBookmarks })).get "b.example.com" = some w ∧
      (mergeSettings {}).minVisitsForIgnore ≤ (w : Int) :=
  persisted_domains_meet_threshold sampleHostname {} (some { historyItems := some sampleHistory })
    (some { bookmarks := some sampleBookmarks }) 1000 sampleStore
    ["b.example.com", "a.example.com"] (by decide) "b.example.com" (by decide)

/-- C2: when `maxDomainsInList` is a non-negative integer, the ignore list that
`createDynamicIgnoreList` persists has at most `maxDomainsInList` domains,
however many domains meet the threshold. -/
theorem persisted_list_length_le_max (hostname : String → Option String)
    (options : Options) (historyResponse : Option HistoryResponse)
    (bookmarkResponse : Option BookmarkResponse) (now : Int) (store : Store)
    (hmax : 0 ≤ (mergeSettings options).maxDomainsInList)
    (list : List String)
    (hlist : (createDynamicIgnoreList hostname options historyResponse bookmarkResponse now true
      store).dynamicIgnoreList = some list) :
    (list.length : Int) ≤ (mergeSettings options).maxDomainsInList := by
  rw [dynamicIgnoreList_create] at hlist
  cases hlist
  unfold sortedDomains
  rw [List.length_map]
  exact slice0_length_le _ _ hmax

/-- The instance of C2 at `maxDomainsInList = 1` with two domains that meet
the threshold: one domain is persisted. -/
theorem persisted_list_length_le_max_witness :
    ((["b.example.com"] : List String).length : Int) ≤
      (mergeSettings { maxDomainsInList := some 1 }).maxDomainsInList :=
  persisted_list_length_le_max sampleHostname { maxDomainsInList := some 1 }
    (some { historyItems := some sampleHistory }) (some { bookmarks := some sampleBookmarks })
    1000 sampleStore (by decide) ["b.example.com"] (by decide)

/-- C3: with a URL parser that rejects the empty string (as `new URL("")`
does), the frequency table built from a history list and a bookmark tree holds
for each hostname `d` the weight (history records that parse to `d`) + 3 ×
(bookmark nodes at any depth that parse to `d`), and no entry when that sum
is 0; one more history record for `d` adds 1 to the weight of `d` and one
more bookmark for `d` adds 3. -/
theorem domainFrequency_weight (hostname : String → Option String)
    (h0 : hostname "" = none)
    (items : List HistoryItem) (nodes : List BookmarkNode) (e1 e2 : Option String)
    (d : String) :
    ((domainFrequency hostname (some ⟨some items, e1⟩) (some ⟨some nodes, e2⟩)).get d =
      if historyCount hostname items d + 3 * bookmarkCount hostname d nodes = 0 then none
      else some (historyCount hostname items d + 3 * bookmarkCount hostname d nodes)) ∧
    (∀ u : String, hostname u = some d →
      weight (domainFrequency hostname (some ⟨some (⟨u, 1⟩ :: items), e1⟩)
          (some ⟨some nodes, e2⟩)) d =
        weight (domainFrequency hostname (some ⟨some items, e1⟩) (some ⟨some nodes, e2⟩)) d
          + 1 ∧
      weight (domainFrequency hostname (some ⟨some items, e1⟩)
          (some ⟨some (.mk (some u) [] :: nodes), e2⟩)) d =
        weight (domainFrequency hostname (some ⟨some items, e1⟩) (some ⟨some nodes, e2⟩)) d
          + 3) := by
  refine ⟨get_domainFrequency hostname h0 items nodes e1 e2 d, ?_⟩
  intro u hu
  have hw : ∀ (is : List HistoryItem) (ns : List BookmarkNode),
      weight (domainFrequency hostname (some ⟨some is, e1⟩) (some ⟨some ns, e2⟩)) d =
        historyCount hostname is d + 3 * bookmarkCount hostname d ns := by
    intro is ns
    unfold weight
    rw [get_domainFrequency hostname h0 is ns e1 e2 d]
    split <;> simp_all
  rw [hw, hw, hw]
  constructor
  · simp [historyCount, List.countP_cons, hu]; omega
  · simp [bookmarkCount, bookmarkCountNode, hu]; omega

/-- The instance of C3 at the sample parser, six visits to `a.example.com`,
four visits and one nested bookmark for `b.example.com`: the weight of
`b.example.com` is 4 + 3 × 1. -/
theorem domainFrequency_weight_witness :
    (domainFrequency sampleHostname (some ⟨some sampleHistory, none⟩)
        (some ⟨some sampleBookmarks, none⟩)).get "b.example.com" = some 7 ∧
      historyCount sampleHostname sampleHistory "b.example.com" = 4 ∧
      bookmarkCount sampleHostname "b.example.com" sampleBookmarks = 1 :=
  ⟨((domainFrequency_weight sampleHostname (by decide) sampleHistory sampleBookmarks none none
      "b.example.com").1).trans (by decide), by decide, by decide⟩

/-- C4: for a URL that parses to hostname `h` and a store whose
`dynamicIgnoreList` is `list`, `shouldIgnoreDomain` returns `true` exactly
when `h` is an element of `list`, by equality of strings. -/
theorem shouldIgnoreDomain_iff_mem (hostname : String → Option String) (url h : String)
    (hparse : hostname url = some h) (stored : Store) (list : List String)
    (hstored : stored.dynamicIgnoreList = some list) :
    shouldIgnoreDomain hostname (.ok stored) url = .ok (decide (h ∈ list)) := by
  simp [shouldIgnoreDomain, shouldIgnoreDomainTry, hparse, hstored]

/-- The instance of C4 at the list `["a.example.com"]`: the page
`https://a.example.com/page` is ignored, `https://sub.a.example.com` is not. -/
theorem shouldIgnoreDomain_iff_mem_witness :
    shouldIgnoreDomain sampleHostname (.ok sampleStore) "https://a.example.com/page" =
        .ok true ∧
      shouldIgnoreDomain sampleHostname (.ok sampleStore) "https://sub.a.example.com" =
        .ok false :=
  ⟨(shouldIgnoreDomain_iff_mem sampleHostname "https://a.example.com/page" "a.example.com"
      (by decide) sampleStore ["a.example.com"] rfl).trans (congrArg Except.ok (by decide)),
    (shouldIgnoreDomain_iff_mem sampleHostname "https://sub.a.example.com" "sub.a.example.com"
      (by decide) sampleStore ["a.example.com"] rfl).trans (congrArg Except.ok (by decide))⟩

/-- C5: the promise of `shouldIgnoreDomain` is always fulfilled, never
rejected, and it is fulfilled with `false` when the URL does not parse, when
the storage read fails, and when no `dynamicIgnoreList` is persisted. -/
theorem shouldIgnoreDomain_fails_safe (hostname : String → Option String)
    (storageGet : Except String Store) (url : String) :
    (∃ isIgnored : Bool, shouldIgnoreDomain hostname storageGet url = .ok isIgnored) ∧
    (hostname url = none ∨ (∃ e, storageGet = .error e) ∨
        (∃ stored, storageGet = .ok stored ∧ stored.dynamicIgnoreList = none) →
      shouldIgnoreDomain hostname storageGet url = .ok false) := by
  constructor
  · unfold shouldIgnoreDomain
    split
    · exact ⟨_, rfl⟩
    · exact ⟨false, rfl⟩
  · rintro (hp | ⟨e, he⟩ | ⟨stored, hs, hl⟩)
    · simp [shouldIgnoreDomain, shouldIgnoreDomainTry, hp]
    · subst he
      cases hp : hostname url <;> simp [shouldIgnoreDomain, shouldIgnoreDomainTry, hp]
    · subst hs
      cases hp : hostname url <;> simp [shouldIgnoreDomain, shouldIgnoreDomainTry, hp, hl]

/-- The instances of C5: the string `not a url`, a failed storage read, and a
store without `dynamicIgnoreList` all give `false`. -/
theorem shouldIgnoreDomain_fails_safe_witness :
    shouldIgnoreDomain sampleHostname (.ok sampleStore) "not a url" = .ok false ∧
      shouldIgnoreDomain sampleHostname (.error "storage unavailable")
        "https://a.example.com/page" = .ok false ∧
      shouldIgnoreDomain sampleHostname (.ok {}) "https://a.example.com/page" = .ok false :=
  ⟨(shouldIgnoreDomain_fails_safe sampleHostname (.ok sampleStore) "not a url").2
      (Or.inl (by decide)),
    (shouldIgnoreDomain_fails_safe sampleHostname (.error "storage unavailable")
      "https://a.example.com/page").2 (Or.inr (Or.inl ⟨_, rfl⟩)),
    (shouldIgnoreDomain_fails_safe sampleHostname (.ok {}) "https://a.example.com/page").2
      (Or.inr (Or.inr ⟨_, rfl, rfl⟩))⟩

/-- C6: after a storage read that succeeds, and for `intervalDays` a whole
number of days between `-10 ^ 8` and `10 ^ 8` (the span of `Date` on either
side of the epoch), `refreshIgnoreList(intervalDays)` calls
`createDynamicIgnoreList` exactly when no `ignoreListLastUpdated` is persisted
or `now - lastUpdated` is at least `intervalDays × 86400000` ms, and does
nothing otherwise; with `intervalDays = 7` it builds at 8 days and at exactly
7 days, and does not build at 3 days nor one millisecond short of 7 days. A
storage read that is rejected is caught, and nothing is built. -/
theorem refreshIgnoreList_build_iff :
    (∀ (stored : Store) (now : Int) (intervalDays : Int),
      -100000000 ≤ intervalDays → intervalDays ≤ 100000000 →
      (refreshIgnoreList (.ok stored) now (intervalDays : ℚ) = .build ↔
        (stored.ignoreListLastUpdated = none ∨
          ∃ lastUpdated : Int, stored.ignoreListLastUpdated = some lastUpdated ∧
            intervalDays * 86400000 ≤ now - lastUpdated)) ∧
      (refreshIgnoreList (.ok stored) now (intervalDays : ℚ) = .noop ↔
        ¬ (stored.ignoreListLastUpdated = none ∨
          ∃ lastUpdated : Int, stored.ignoreListLastUpdated = some lastUpdated ∧
            intervalDays * 86400000 ≤ now - lastUpdated))) ∧
    (∀ (now : Int) (list : Option (List String)) (others : List (String × String)),
      refreshIgnoreList (.ok ⟨list, some (now - 8 * 86400000), others⟩) now 7 = .build ∧
      refreshIgnoreList (.ok ⟨list, some (now - 3 * 86400000), others⟩) now 7 = .noop ∧
      refreshIgnoreList (.ok ⟨list, some (now - 7 * 86400000), others⟩) now 7 = .build ∧
      refreshIgnoreList (.ok ⟨list, some (now - (7 * 86400000 - 1)), others⟩) now 7 = .noop ∧
      refreshIgnoreList (.ok ⟨list, none, others⟩) now 7 = .build) ∧
    (∀ (message : String) (now : Int) (intervalDays : ℚ),
      refreshIgnoreList (.error message) now intervalDays = .noop) := by
  have key : ∀ (stored : Store) (now : Int) (intervalDays : Int),
      -100000000 ≤ intervalDays → intervalDays ≤ 100000000 →
      (refreshIgnoreList (.ok stored) now (intervalDays : ℚ) = .build ↔
        (stored.ignoreListLastUpdated = none ∨
          ∃ lastUpdated : Int, stored.ignoreListLastUpdated = some lastUpdated ∧
            intervalDays * 86400000 ≤ now - lastUpdated)) := by
    intro stored now intervalDays hlo hhi
    obtain ⟨list, last, others⟩ := stored
    cases last with
    | none => simp [refreshIgnoreList]
    | some t =>
      rw [refreshIgnoreList_some list others t now intervalDays hlo hhi]
      constructor
      · intro h
        exact Or.inr ⟨t, rfl, h⟩
      · rintro (h | ⟨t', ht', h⟩)
        · cases h
        · cases ht'
          exact h
  have hnoop : ∀ (s : Store) (now : Int) (q : ℚ),
      ¬ refreshIgnoreList (.ok s) now q = .build → refreshIgnoreList (.ok s) now q = .noop := by
    intro s now q h
    cases hr : refreshIgnoreList (.ok s) now q
    · exact absurd hr h
    · rfl
  have seven : ∀ (now t : Int) (list : Option (List String)) (others : List (String × String)),
      refreshIgnoreList (.ok ⟨list, some t, others⟩) now 7 = .build ↔
        7 * 86400000 ≤ now - t := by
    intro now t list others
    have h := refreshIgnoreList_some list others t now 7 (by norm_num) (by norm_num)
    simpa using h
  refine ⟨fun stored now intervalDays hlo hhi =>
    ⟨key stored now intervalDays hlo hhi, ?_⟩, ?_, fun _ _ _ => rfl⟩
  · rw [← key stored now intervalDays hlo hhi]
    cases refreshIgnoreList (.ok stored) now (intervalDays : ℚ) <;> simp
  · intro now list others
    refine ⟨?_, ?_, ?_, ?_, ?_⟩
    · rw [seven]; omega
    · apply hnoop; rw [seven]; omega
    · rw [seven]; omega
    · apply hnoop; rw [seven]; omega
    · simp [refreshIgnoreList]

/-- The instance of C6 at the sample store, whose list was last updated at
time 0, and `intervalDays = 7`: at 8 days the list is rebuilt, at 3 days it
is not. -/
theorem refreshIgnoreList_build_iff_witness :
    refreshIgnoreList (.ok sampleStore) 691200000 ((7 : Int) : ℚ) = .build ∧
      refreshIgnoreList (.ok sampleStore) 259200000 ((7 : Int) : ℚ) = .noop :=
  ⟨((refreshIgnoreList_build_iff.1 sampleStore 691200000 7 (by decide) (by decide)).1).mpr
      (Or.inr ⟨0, rfl, by decide⟩),
    ((refreshIgnoreList_build_iff.1 sampleStore 259200000 7 (by decide) (by decide)).2).mpr
      (by
        rintro (h | ⟨t, ht, hle⟩)
        · cases h
        · cases ht
          revert hle
          decide)⟩

/-- C7: the ignore list that `createDynamicIgnoreList` persists for a history
list and a bookmark tree is the list it persists for the same inputs with
every history record and every bookmark URL that fails to parse removed, and
in both runs a list is persisted: a malformed URL does not abort the run. -/
theorem malformed_urls_skipped (hostname : String → Option String) (options : Options)
    (items : List HistoryItem) (nodes : List BookmarkNode) (e1 e2 : Option String)
    (now : Int) (store : Store) :
    (createDynamicIgnoreList hostname options (some ⟨some items, e1⟩) (some ⟨some nodes, e2⟩)
        now true store).dynamicIgnoreList =
      (createDynamicIgnoreList hostname options (some ⟨some (parsableHistory hostname items), e1⟩)
        (some ⟨some (dropUnparsable hostname nodes), e2⟩) now true store).dynamicIgnoreList ∧
    ∃ list : List String,
      (createDynamicIgnoreList hostname options (some ⟨some items, e1⟩) (some ⟨some nodes, e2⟩)
        now true store).dynamicIgnoreList = some list := by
  refine ⟨?_, _, dynamicIgnoreList_create _ _ _ _ _ _⟩
  rw [dynamicIgnoreList_create, dynamicIgnoreList_create]
  simp [domainFrequency, processHistory_parsable, processBookmarks_dropUnparsable]

/-- The instance of C7 at one unparsable record (`not a url`) and nine
parsable ones: the list persisted is the list of the nine alone,
`["a.example.com"]`. -/
theorem malformed_urls_skipped_witness :
    (createDynamicIgnoreList sampleHostname {} (some ⟨some oneBadNineGood, none⟩)
        (some ⟨some [], none⟩) 1000 true sampleStore).dynamicIgnoreList =
      (createDynamicIgnoreList sampleHostname {} (some ⟨some oneBadNineGood.tail, none⟩)
        (some ⟨some [], none⟩) 1000 true sampleStore).dynamicIgnoreList ∧
    parsableHistory sampleHostname oneBadNineGood = oneBadNineGood.tail ∧
    (createDynamicIgnoreList sampleHostname {} (some ⟨some oneBadNineGood, none⟩)
        (some ⟨some [], none⟩) 1000 true sampleStore).dynamicIgnoreList =
      some ["a.example.com"] :=
  ⟨(malformed_urls_skipped sampleHostname {} oneBadNineGood [] none none 1000 sampleStore).1.trans
      (by decide), by decide, by decide⟩

/-- C8 as stated fails: the history query throws, the handler answers with an
error, and `createDynamicIgnoreList` still writes: the stored list
`["a.example.com"]` becomes `[]` and the timestamp `0` becomes `1000`. -/
theorem provider_failure_overwrites_store :
    sampleStore.dynamicIgnoreList = some ["a.example.com"] ∧
    sampleStore.ignoreListLastUpdated = some 0 ∧
    (createDynamicIgnoreList sampleHostname {}
        (some (getHistoryData (.error "history unavailable")))
        (some (getBookmarkData (.ok (some [])))) 1000 true sampleStore).dynamicIgnoreList =
      some [] ∧
    (createDynamicIgnoreList sampleHostname {}
        (some (getHistoryData (.error "history unavailable")))
        (some (getBookmarkData (.ok (some [])))) 1000 true sampleStore).ignoreListLastUpdated =
      some 1000 := by
  decide

/-- C8 amended: a failed provider query does not abort the run. A failed
history query gives the store of a run whose history is empty, a failed
bookmark query the store of a run whose bookmark tree is empty, and in every
run whose write succeeds `dynamicIgnoreList` and `ignoreListLastUpdated` are
overwritten with the list built from the data that did arrive and with the
current time. -/
theorem provider_failure_is_empty_data (hostname : String → Option String) (options : Options)
    (historyResponse : Option HistoryResponse) (bookmarkResponse : Option BookmarkResponse)
    (now : Int) (store : Store) :
    (historyFailed historyResponse = true →
      createDynamicIgnoreList hostname options historyResponse bookmarkResponse now true store =
        createDynamicIgnoreList hostname options (some ⟨some [], none⟩) bookmarkResponse now true
          store) ∧
    (bookmarkFailed bookmarkResponse = true →
      createDynamicIgnoreList hostname options historyResponse bookmarkResponse now true store =
        createDynamicIgnoreList hostname options historyResponse (some ⟨some [], none⟩) now true
          store) ∧
    (createDynamicIgnoreList hostname options historyResponse bookmarkResponse now true
        store).dynamicIgnoreList =
      some (ignoreListArray (mergeSettings options)
        (domainFrequency hostname historyResponse bookmarkResponse)) ∧
    (createDynamicIgnoreList hostname options historyResponse bookmarkResponse now true
        store).ignoreListLastUpdated = some now := by
  refine ⟨?_, ?_, ?_, ?_⟩
  · intro h
    simp only [createDynamicIgnoreList]
    rw [domainFrequency_failed_history hostname _ _ h]
  · intro h
    simp only [createDynamicIgnoreList]
    rw [domainFrequency_failed_bookmarks hostname _ _ h]
  · simp [createDynamicIgnoreList, storageSetIgnoreList]
  · simp [createDynamicIgnoreList, storageSetIgnoreList]

/-- The instance of amended C8 at a history query that throws: the store
after the run is the store of a run with an empty history, and it holds the
list built from the bookmarks alone, here `[]`, with the new timestamp. -/
theorem provider_failure_is_empty_data_witness :
    createDynamicIgnoreList sampleHostname {}
        (some (getHistoryData (.error "history unavailable")))
        (some ⟨some sampleBookmarks, none⟩) 1000 true sampleStore =
      { dynamicIgnoreList := some []
        ignoreListLastUpdated := some 1000
        others := [("claudeApiKey", "key")] } :=
  ((provider_failure_is_empty_data sampleHostname {}
      (some (getHistoryData (.error "history unavailable")))
      (some ⟨some sampleBookmarks, none⟩) 1000 sampleStore).1 (by decide)).trans (by decide)

/-- C9: a second run of `createDynamicIgnoreList` on the same responses, the
same options and the same write outcome, at any later clock value, leaves
the same `dynamicIgnoreList` as the first run left: the same list, hence the
same set of domains. -/
theorem createDynamicIgnoreList_idempotent (hostname : String → Option String)
    (options : Options) (historyResponse : Option HistoryResponse)
    (bookmarkResponse : Option BookmarkResponse) (now1 now2 : Int) (writeOk : Bool)
    (store : Store) :
    (createDynamicIgnoreList hostname options historyResponse bookmarkResponse now2 writeOk
      (createDynamicIgnoreList hostname options historyResponse bookmarkResponse now1 writeOk
        store)).dynamicIgnoreList =
    (createDynamicIgnoreList hostname options historyResponse bookmarkResponse now1 writeOk
      store).dynamicIgnoreList := by
  cases writeOk <;> simp [createDynamicIgnoreList, storageSetIgnoreList]

/-- C10: when the number of table entries whose weight is at least
`minVisitsForIgnore` is at most `maxDomainsInList`, a hostname is in the
persisted ignore list exactly when the table has an entry for it with weight
at least `minVisitsForIgnore`. -/
theorem persisted_list_is_threshold_set (hostname : String → Option String)
    (options : Options) (historyResponse : Option HistoryResponse)
    (bookmarkResponse : Option BookmarkResponse) (now : Int) (store : Store)
    (hfit : ((((domainFrequency hostname historyResponse bookmarkResponse).filter
      (fun entry => decide ((mergeSettings options).minVisitsForIgnore ≤ (entry.2 : Int)))).length
        : Nat) : Int) ≤ (mergeSettings options).maxDomainsInList)
    (list : List String)
    (hlist : (createDynamicIgnoreList hostname options historyResponse bookmarkResponse now true
      store).dynamicIgnoreList = some list)
    (d : String) :
    d ∈ list ↔
      ∃ w : Nat, (domainFrequency hostname historyResponse bookmarkResponse).get d = some w ∧
        (mergeSettings options).minVisitsForIgnore ≤ (w : Int) := by
  rw [dynamicIgnoreList_create] at hlist
  cases hlist
  constructor
  · exact mem_sortedDomains _ _ (nodup_domainFrequency _ _ _) d
  · rintro ⟨w, hw, hmin⟩
    exact sortedDomains_of_fits _ _ (nodup_domainFrequency _ _ _) hfit d w hw hmin

/-- The scenario of C10: six visits to `a.example.com`, four to
`b.example.com`, no bookmarks, `minVisitsForIgnore = 5`. The persisted list is
`["a.example.com"]`; `a.example.com` has weight 6 and `b.example.com`, with
weight 4, is not in the list. -/
theorem persisted_list_is_threshold_set_witness :
    (createDynamicIgnoreList sampleHostname { minVisitsForIgnore := some 5 }
        (some ⟨some sampleHistory, none⟩) (some ⟨some [], none⟩) 1000 true
        sampleStore).dynamicIgnoreList = some ["a.example.com"] ∧
    ("a.example.com" ∈ ["a.example.com"] ↔
      ∃ w : Nat, (domainFrequency sampleHostname (some ⟨some sampleHistory, none⟩)
          (some ⟨some [], none⟩)).get "a.example.com" = some w ∧
        (mergeSettings { minVisitsForIgnore := some 5 }).minVisitsForIgnore ≤ (w : Int)) ∧
    ("b.example.com" ∈ ["a.example.com"] ↔
      ∃ w : Nat, (domainFrequency sampleHostname (some ⟨some sampleHistory, none⟩)
          (some ⟨some [], none⟩)).get "b.example.com" = some w ∧
        (mergeSettings { minVisitsForIgnore := some 5 }).minVisitsForIgnore ≤ (w : Int)) :=
  ⟨by decide,
    persisted_list_is_threshold_set sampleHostname { minVisitsForIgnore := some 5 }
      (some ⟨some sampleHistory, none⟩) (some ⟨some [], none⟩) 1000 sampleStore (by decide)
      ["a.example.com"] (by decide) "a.example.com",
    persisted_list_is_threshold_set sampleHostname { minVisitsForIgnore := some 5 }
      (some ⟨some sampleHistory, none⟩) (some ⟨some [], none⟩) 1000 sampleStore (by decide)
      ["a.example.com"] (by decide) "b.example.com"⟩

/-- C11: after a run of `createDynamicIgnoreList` whose write succeeds, the
key `dynamicIgnoreList` holds the newly computed list, which is the same
whatever the store held before and has only hostnames of the new frequency
table; `ignoreListLastUpdated` holds the current time; every other key of the
store has the value it had before. -/
theorem build_replaces_list_and_keeps_other_keys (hostname : String → Option String)
    (options : Options) (historyResponse : Option HistoryResponse)
    (bookmarkResponse : Option BookmarkResponse) (now : Int) (store : Store) :
    (createDynamicIgnoreList hostname options historyResponse bookmarkResponse now true
        store).dynamicIgnoreList =
      some (ignoreListArray (mergeSettings options)
        (domainFrequency hostname historyResponse bookmarkResponse)) ∧
    (∀ previous : Store,
      (createDynamicIgnoreList hostname options historyResponse bookmarkResponse now true
          previous).dynamicIgnoreList =
        (createDynamicIgnoreList hostname options historyResponse bookmarkResponse now true
          store).dynamicIgnoreList) ∧
    (∀ d ∈ ignoreListArray (mergeSettings options)
        (domainFrequency hostname historyResponse bookmarkResponse),
      ∃ w : Nat, (domainFrequency hostname historyResponse bookmarkResponse).get d = some w) ∧
    (createDynamicIgnoreList hostname options historyResponse bookmarkResponse now true
        store).ignoreListLastUpdated = some now ∧
    (createDynamicIgnoreList hostname options historyResponse bookmarkResponse now true
        store).others = store.others := by
  refine ⟨?_, ?_, ?_, ?_, ?_⟩
  · simp [createDynamicIgnoreList, storageSetIgnoreList]
  · intro previous
    simp [createDynamicIgnoreList, storageSetIgnoreList]
  · intro d hd
    rw [ignoreListArray_eq _ _ (nodup_domainFrequency _ _ _)] at hd
    obtain ⟨w, hw, _⟩ := mem_sortedDomains _ _ (nodup_domainFrequency _ _ _) d hd
    exact ⟨w, hw⟩
  · simp [createDynamicIgnoreList, storageSetIgnoreList]
  · simp [createDynamicIgnoreList, storageSetIgnoreList]

/-- The instance of C11 at a store that holds `["a.example.com"]`, timestamp 0
and an API key, and a build from bookmarks alone whose list is empty: the old
domain is gone, the timestamp is new, the API key is kept. -/
theorem build_replaces_list_and_keeps_other_keys_witness :
    createDynamicIgnoreList sampleHostname {} (some ⟨some [], none⟩)
        (some ⟨some sampleBookmarks, none⟩) 1000 true sampleStore =
      { dynamicIgnoreList := some []
        ignoreListLastUpdated := some 1000
        others := [("claudeApiKey", "key")] } ∧
    (createDynamicIgnoreList sampleHostname {} (some ⟨some [], none⟩)
        (some ⟨some sampleBookmarks, none⟩) 1000 true sampleStore).others = sampleStore.others :=
  ⟨by decide,
    (build_replaces_list_and_keeps_other_keys sampleHostname {} (some ⟨some [], none⟩)
      (some ⟨some sampleBookmarks, none⟩) 1000 sampleStore).2.2.2.2⟩

/-- C12: for every `maxDomainsInList`, the persisted list is ordered by
non-increasing weight in the frequency table, and each domain in it has a
weight at least that of every table entry that meets `minVisitsForIgnore` and
is not in the list. -/
theorem truncation_keeps_highest (hostname : String → Option String)
    (options : Options) (historyResponse : Option HistoryResponse)
    (bookmarkResponse : Option BookmarkResponse) (now : Int) (store : Store)
    (list : List String)
    (hlist : (createDynamicIgnoreList hostname options historyResponse bookmarkResponse now true
      store).dynamicIgnoreList = some list) :
    list.Pairwise (fun d1 d2 =>
      weight (domainFrequency hostname historyResponse bookmarkResponse) d2 ≤
        weight (domainFrequency hostname historyResponse bookmarkResponse) d1) ∧
    ∀ d ∈ list, ∀ (d' : String) (w' : Nat),
      (domainFrequency hostname historyResponse bookmarkResponse).get d' = some w' →
      (mergeSettings options).minVisitsForIgnore ≤ (w' : Int) →
      d' ∉ list →
      w' ≤ weight (domainFrequency hostname historyResponse bookmarkResponse) d := by
  rw [dynamicIgnoreList_create] at hlist
  cases hlist
  have hnd := nodup_domainFrequency hostname historyResponse bookmarkResponse
  generalize hF : domainFrequency hostname historyResponse bookmarkResponse = F at hnd ⊢
  generalize hmin : (mergeSettings options).minVisitsForIgnore = minVisits
  have hsorted := sorted_sortByCountDesc
    (F.filter (fun entry => decide (minVisits ≤ (entry.2 : Int))))
  have hperm := sortByCountDesc_perm
    (F.filter (fun entry => decide (minVisits ≤ (entry.2 : Int))))
  have hinF : ∀ e ∈ sortByCountDesc
      (F.filter (fun entry => decide (minVisits ≤ (entry.2 : Int)))), e ∈ F := by
    intro e he
    exact (List.mem_filter.mp (hperm.subset he)).1
  obtain ⟨n, hn⟩ := slice0_eq_take
    (sortByCountDesc (F.filter (fun entry => decide (minVisits ≤ (entry.2 : Int)))))
    (mergeSettings options).maxDomainsInList
  unfold sortedDomains
  rw [hmin, hn]
  generalize hS : sortByCountDesc
    (F.filter (fun entry => decide (minVisits ≤ (entry.2 : Int)))) = S at hsorted hperm hinF
  have hsplit : S.take n ++ S.drop n = S := List.take_append_drop n S
  constructor
  · rw [List.pairwise_map]
    refine List.Pairwise.imp_of_mem ?_ (hsorted.sublist (List.take_sublist n S))
    intro a b ha hb hab
    have haF := hinF a ((List.take_sublist n S).subset ha)
    have hbF := hinF b ((List.take_sublist n S).subset hb)
    rw [weight_of_mem F hnd a.1 a.2 haF, weight_of_mem F hnd b.1 b.2 hbF]
    exact hab
  · intro d hd d' w' hget hge hnot
    rw [List.mem_map] at hd
    obtain ⟨⟨k, w⟩, hk, hkd⟩ := hd
    simp only at hkd
    subst hkd
    have hkF := hinF (k, w) ((List.take_sublist n S).subset hk)
    rw [weight_of_mem F hnd k w hkF]
    have hd'F : (d', w') ∈ F := (DomainMap.get_eq_some_iff F hnd d' w').mp hget
    have hd'S : (d', w') ∈ S := by
      apply hperm.symm.subset
      rw [List.mem_filter]
      exact ⟨hd'F, by simpa using hge⟩
    have hd'drop : (d', w') ∈ S.drop n := by
      rw [← hsplit, List.mem_append] at hd'S
      rcases hd'S with h | h
      · exact absurd (List.mem_map_of_mem Prod.fst h) hnot
      · exact h
    rw [← hsplit, List.pairwise_append] at hsorted
    exact hsorted.2.2 (k, w) hk (d', w') hd'drop

/-- The instance of C12 at `maxDomainsInList = 1`, `a.example.com` with six
visits and `b.example.com` with four visits and one bookmark: the list is
`["b.example.com"]`, and `a.example.com`, left out with weight 6, weighs no
more than `b.example.com`. -/
theorem truncation_keeps_highest_witness :
    6 ≤ weight (domainFrequency sampleHostname (some ⟨some sampleHistory, none⟩)
      (some ⟨some sampleBookmarks, none⟩)) "b.example.com" :=
  (truncation_keeps_highest sampleHostname { maxDomainsInList := some 1 }
    (some ⟨some sampleHistory, none⟩) (some ⟨some sampleBookmarks, none⟩) 1000 sampleStore
    ["b.example.com"] (by decide)).2 "b.example.com" (by decide) "a.example.com" 6
    (by decide) (by decide) (by decide)

/-- C13: the frequency table built from a permutation of the history records
and from the bookmark tree with children reordered at any nodes maps every
hostname to the same weight as the table built from the original inputs. -/
theorem domainFrequency_order_independent (hostname : String → Option String)
    (items items' : List HistoryItem) (nodes nodes' : List BookmarkNode)
    (e1 e2 : Option String)
    (hperm : items.Perm items') (hreorder : Reorder nodes nodes') (d : String) :
    (domainFrequency hostname (some ⟨some items', e1⟩) (some ⟨some nodes', e2⟩)).get d =
      (domainFrequency hostname (some ⟨some items, e1⟩) (some ⟨some nodes, e2⟩)).get d := by
  rw [get_domainFrequency_guarded, get_domainFrequency_guarded,
    historyCount_perm hostname d hperm,
    bookmarkCount_reorder (guardedHostname hostname) d hreorder]

/-- The instance of C13 at the reversed sample history and the sample folder
with its two bookmarks exchanged: `b.example.com` has weight 7 in both
tables, while the entries of the two tables come in different orders. -/
theorem domainFrequency_order_independent_witness :
    (domainFrequency sampleHostname (some ⟨some sampleHistory.reverse, none⟩)
        (some ⟨some sampleFolderReordered, none⟩)).get "b.example.com" = some 7 ∧
    (domainFrequency sampleHostname (some ⟨some sampleHistory, none⟩)
        (some ⟨some sampleFolder, none⟩)).get "b.example.com" = some 7 ∧
    domainFrequency sampleHostname (some ⟨some sampleHistory.reverse, none⟩)
        (some ⟨some sampleFolderReordered, none⟩) ≠
      domainFrequency sampleHostname (some ⟨some sampleHistory, none⟩)
        (some ⟨some sampleFolder, none⟩) :=
  ⟨(domainFrequency_order_independent sampleHostname sampleHistory sampleHistory.reverse
      sampleFolder sampleFolderReordered none none (List.reverse_perm sampleHistory).symm
      (Reorder.cons none (Reorder.swap _ _ []) Reorder.nil) "b.example.com").trans (by decide),
    by decide, by decide⟩

end Saidia
